import Mathlib

/-!
Verification development for the commission backend.

Shallow embedding of the commission resolution engine of the repository:
`src/services/commissionService.js` (formula engine),
`src/controllers/customerController.js` (`bulkProcessCommissions`, the
reconciliation batch processor), `src/controllers/commissionController.js`
and `src/models/commissionModel.js` (balance ledger mutations),
`src/models/teamModel.js` (team membership store).

Money is modelled by `ℚ` (JavaScript decimal literals such as `0.04` are
embedded as the exact rationals they denote; `NUMERIC` database columns are
exact decimals).  Dates are modelled by a month-index / day-of-month pair,
which is faithful to JavaScript `Date` comparison and to the `date-fns`
`differenceInMonths` function on dates whose day of month lies in `1..27`
(for such dates the end-of-month adjustments of `differenceInMonths` are
vacuous).  Database reads performed inside the JavaScript functions are
passed in as explicit arguments.
-/

/-- A calendar date: `mi` is the month index (`12 * year + month`), `d` the
day of month.  Chronological order is lexicographic on `(mi, d)`, matching
JavaScript `Date` comparison for day-of-month values in `1..27`. -/
structure JsDate where
  mi : ℤ
  d : ℤ
  deriving DecidableEq, Repr

namespace JsDate

/-- `a < b` as JavaScript `Date` comparison (chronological order). -/
def ltB (a b : JsDate) : Bool :=
  a.mi < b.mi || (a.mi = b.mi && a.d < b.d)

/-- `a <= b` as JavaScript `Date` comparison (chronological order). -/
def leB (a b : JsDate) : Bool :=
  a.mi < b.mi || (a.mi = b.mi && a.d ≤ b.d)

end JsDate

/-- Embedding of `date-fns` `differenceInMonths(dateLeft, dateRight)`: the
number of full calendar months from `dateRight` to `dateLeft` (signed,
truncated toward zero).  For dates with day of month in `1..27` the
`date-fns` implementation reduces to: take the calendar-month difference
and subtract one (toward zero) when the final month is not full. -/
def differenceInMonths (dateLeft dateRight : JsDate) : ℤ :=
  let cal := dateLeft.mi - dateRight.mi
  if cal = 0 then 0
  else if 0 < cal then cal - (if dateLeft.d < dateRight.d then 1 else 0)
  else cal + (if dateRight.d < dateLeft.d then 1 else 0)

/-- User roles.  The source dispatches on the `role` string of the `users`
row; the five recognised strings are the five constructors below and every
other string takes the `default` branch, embedded as `other`. -/
inductive Role where
  | salesman
  | supplementer
  | salesManager
  | supplementManager
  | affiliateMarketer
  | other
  deriving DecidableEq, Repr

/-- A `users` row, restricted to the fields the commission service reads. -/
structure User where
  id : ℤ
  role : Role
  hire_date : Option JsDate
  deriving DecidableEq, Repr

/-- One entry of the `team_members` array produced by
`getHistoricalTeamDataForCommission` (a `user_team_membership` row joined
with the member's `users.hire_date`). -/
structure TeamMember where
  user_id : ℤ
  hire_date : Option JsDate
  joined_at : JsDate
  left_at : Option JsDate
  deriving DecidableEq, Repr

/-- The historical team object consumed by the manager formulas.  The code
guards on `!team || !team.team_members`, so the member list is optional. -/
structure Team where
  team_members : Option (List TeamMember)
  deriving DecidableEq, Repr

/-- A `customers` row, restricted to the fields the commission service
reads.  Nullable columns are `Option`s; `created_at` is `NOT NULL`. -/
structure Customer where
  salesman_id : Option ℤ
  supplementer_id : Option ℤ
  manager_id : Option ℤ
  supplement_manager_id : Option ℤ
  referrer_id : Option ℤ
  lead_source : Option String
  initial_scope_price : Option ℚ
  total_job_price : Option ℚ
  going_to_appraisal : Bool
  jn_date_added : Option JsDate
  created_at : JsDate
  deriving DecidableEq, Repr

/-- `calculateAffiliateCommission` of `src/services/commissionService.js`. -/
def calculateAffiliateCommission (totalJobPrice : ℚ) : ℚ :=
  min (0.05 * totalJobPrice) 750

/-- The `tenureMonths <= 6` INSCOPE switch of `calculateSalesmanCommission`. -/
def inscopeTierJunior (leadSource : String) (effectivePrice : ℚ) : ℚ :=
  if leadSource = "Canvassing - Salesman" then 0.10 * effectivePrice
  else if leadSource = "Canvassing - Company" then 0.08 * effectivePrice - 300
  else if leadSource = "Affiliate" then 0.06 * effectivePrice
  else if leadSource = "Referral" then 0.10 * effectivePrice
  else 0.08 * effectivePrice

/-- The `tenureMonths <= 12` INSCOPE switch of `calculateSalesmanCommission`. -/
def inscopeTierMid (leadSource : String) (effectivePrice : ℚ) : ℚ :=
  if leadSource = "Canvassing - Salesman" then 0.13 * effectivePrice
  else if leadSource = "Canvassing - Company" then 0.10 * effectivePrice - 300
  else if leadSource = "Affiliate" then 0.08 * effectivePrice
  else if leadSource = "Referral" then 0.10 * effectivePrice
  else 0.10 * effectivePrice

/-- The `tenureMonths > 12` INSCOPE switch of `calculateSalesmanCommission`. -/
def inscopeTierSenior (leadSource : String) (effectivePrice : ℚ) : ℚ :=
  if leadSource = "Canvassing - Salesman" then 0.15 * effectivePrice
  else if leadSource = "Canvassing - Company" then 0.12 * effectivePrice - 300
  else if leadSource = "Affiliate" then 0.10 * effectivePrice
  else if leadSource = "Referral" then 0.12 * effectivePrice
  else 0.12 * effectivePrice

/-- `calculateSalesmanCommission` of `src/services/commissionService.js`.
`now` embeds the `new Date()` fallback used when the customer creation date
is absent. -/
def calculateSalesmanCommission (user : User) (leadSource : String)
    (initialScopePrice totalJobPrice marginAdded : ℚ)
    (customerCreationDate : Option JsDate) (now : JsDate) : ℚ :=
  let effectiveDate := customerCreationDate.getD now
  let hireDate := user.hire_date.getD effectiveDate
  let tenureMonths := differenceInMonths effectiveDate hireDate
  let effectivePrice := if initialScopePrice = 0 then totalJobPrice else initialScopePrice
  let mrgadd := if 0 < initialScopePrice ∧ 0 < totalJobPrice then 0.04 * marginAdded else 0
  let inscope :=
    if tenureMonths ≤ 6 then inscopeTierJunior leadSource effectivePrice
    else if tenureMonths ≤ 12 then inscopeTierMid leadSource effectivePrice
    else inscopeTierSenior leadSource effectivePrice
  inscope + mrgadd

/-- The lead-source switch of `calculateSalesManagerCommission` for a
manager working their own job (`isManagerWorkingJob`). -/
def salesManagerSelfTable (leadSource : String) (totalJobPrice : ℚ) : ℚ :=
  if leadSource = "Canvassing - Salesman" ∨ leadSource = "Referral" then 0.15 * totalJobPrice
  else if leadSource = "Canvassing - Company" then 0.12 * totalJobPrice - 300
  else if leadSource = "Affiliate" then 0.10 * totalJobPrice
  else 0.12 * totalJobPrice

/-- The `team.team_members.find(...)` predicate of the manager formulas:
the member matches the given assignee id, joined on or before the
customer's `created_at`, and has not left by then. -/
def memberCoversB (assigneeId : Option ℤ) (createdAt : JsDate) (m : TeamMember) : Bool :=
  (assigneeId = some m.user_id : Bool)
    && m.joined_at.leB createdAt
    && (match m.left_at with
        | none => true
        | some l => createdAt.ltB l)

/-- `calculateSalesManagerCommission` of `src/services/commissionService.js`. -/
def calculateSalesManagerCommission (user : User) (customer : Customer)
    (leadSource : String) (totalJobPrice : ℚ) (team : Option Team)
    (skipOverride : Bool) : ℚ :=
  if skipOverride then 0
  else if customer.salesman_id = some user.id then
    salesManagerSelfTable leadSource totalJobPrice
  else
    match team with
    | none => 0
    | some t =>
      match t.team_members with
      | none => 0
      | some members =>
        match members.find? (memberCoversB customer.salesman_id customer.created_at) with
        | none => 0
        | some teamMember =>
          let memberHireDate := teamMember.hire_date.getD customer.created_at
          let tenureMonths := differenceInMonths customer.created_at memberHireDate
          if tenureMonths ≤ 6 then 0.04 * totalJobPrice
          else if tenureMonths ≤ 12 then 0.02 * totalJobPrice
          else 0.03 * totalJobPrice

/-- `calculateSupplementManagerCommission` of
`src/services/commissionService.js`. -/
def calculateSupplementManagerCommission (user : User) (customer : Customer)
    (marginAdded : ℚ) (team : Option Team) (goingToAppraisal : Bool)
    (skipOverride : Bool) : ℚ :=
  if skipOverride then 0
  else if customer.supplementer_id = some user.id then
    let rate : ℚ := if goingToAppraisal then 0.08 else 0.10
    max (rate * marginAdded) 500
  else
    match team with
    | none => 0
    | some t =>
      match t.team_members with
      | none => 0
      | some members =>
        match members.find? (memberCoversB customer.supplementer_id customer.created_at) with
        | none => 0
        | some _ =>
          let rate : ℚ := if goingToAppraisal then 0.02 else 0.03
          max (rate * marginAdded) 200

/-- `calculateSupplementerCommission` of `src/services/commissionService.js`. -/
def calculateSupplementerCommission (marginAdded : ℚ) (goingToAppraisal : Bool) : ℚ :=
  let rate : ℚ := if goingToAppraisal then 0.06 else 0.07
  max (rate * marginAdded) 300

/-- The `skipOverrideDueToTiming` flag computed by `calculateCommission`:
the customer was created strictly before the user's hire date (when both
dates are known) and the user is not explicitly assigned to the job. -/
def skipOverrideDueToTiming (user : User) (customer : Customer) : Bool :=
  let customerCreationDate := customer.jn_date_added.getD customer.created_at
  let customerCreatedBeforeHire :=
    match user.hire_date with
    | some hd => customerCreationDate.ltB hd
    | none => false
  let isExplicitlyAssignedToJob :=
    customer.salesman_id = some user.id ∨
    customer.supplementer_id = some user.id ∨
    customer.manager_id = some user.id ∨
    customer.supplement_manager_id = some user.id
  customerCreatedBeforeHire && !(isExplicitlyAssignedToJob : Bool)

/-- `calculateCommission` of `src/services/commissionService.js` — the
role-dispatched formula engine (the spec's `computeCommission`).
`historicalTeam` is the result of the internal database read
`getHistoricalTeamDataForCommission(user.id, customerCreationDate)`, passed
in explicitly; when `useHistoricalData` is set (the default, and the value
used by the reconciliation batch) it replaces the `team` argument.  `now`
embeds `new Date()`. -/
def calculateCommission (user : User) (customer : Customer)
    (team : Option Team) (useHistoricalData : Bool)
    (historicalTeam : Option Team) (now : JsDate) : ℚ :=
  let leadSource := customer.lead_source.getD "Other"
  let initialScopePrice := customer.initial_scope_price.getD 0
  let totalJobPrice := customer.total_job_price.getD 0
  let marginAdded := totalJobPrice - initialScopePrice
  let customerCreationDate := customer.jn_date_added.getD customer.created_at
  let skipOverride := skipOverrideDueToTiming user customer
  let effectiveTeam := if useHistoricalData then historicalTeam else team
  match user.role with
  | .affiliateMarketer => calculateAffiliateCommission totalJobPrice
  | .salesman =>
      calculateSalesmanCommission user leadSource initialScopePrice totalJobPrice
        marginAdded (some customerCreationDate) now
  | .salesManager =>
      calculateSalesManagerCommission user customer leadSource totalJobPrice
        effectiveTeam skipOverride
  | .supplementManager =>
      calculateSupplementManagerCommission user customer marginAdded
        effectiveTeam customer.going_to_appraisal skipOverride
  | .supplementer =>
      calculateSupplementerCommission marginAdded customer.going_to_appraisal
  | .other => 0

/-! ## Reconciliation batch processor

Embedding of the compute/diff phase of `bulkProcessCommissions` in
`src/controllers/customerController.js` (lines 183–307) and the bulk write
helpers it hands its output to (`bulkInsertCommissions`,
`bulkUpdateCommissions`, `bulkUpdateUserBalances`).  A `RoleTask` is one
entry of `commissionTasks`: a `(customer, user)` role assignment together
with the commission amount the formula engine computes for it
(`parseFloat(calculateCommission(...)) || 0` — deterministic in the job,
user and team history).  The existing-commission lookup and the
admin-modified skip happen at task construction in the source; the store
is not mutated between task construction and the calculation loop, so the
embedding performs the lookup inside the per-task step. -/

/-- A `commissions_due` row, restricted to the columns
`bulkProcessCommissions` selects. -/
structure CommissionRecord where
  id : ℤ
  customer_id : ℤ
  user_id : ℤ
  commission_amount : ℚ
  admin_modified : Bool
  deriving DecidableEq, Repr

/-- One entry of `commissionTasks`: the `(customerId, userId)` key and the
freshly computed numeric amount for that role assignment. -/
structure RoleTask where
  customerId : ℤ
  userId : ℤ
  amt : ℚ
  deriving DecidableEq, Repr

/-- An entry of `commissionsToUpdate`. -/
structure UpdateOp where
  id : ℤ
  commission_amount : ℚ
  deriving DecidableEq, Repr

/-- An entry of `commissionsToCreate`. -/
structure CreateOp where
  user_id : ℤ
  customer_id : ℤ
  commission_amount : ℚ
  admin_modified : Bool
  deriving DecidableEq, Repr

/-- The accumulated output of the calculation loop: the two operation
lists and the `balanceUpdates` map (total signed delta per user id,
defaulting to zero). -/
structure ReconcileResult where
  toCreate : List CreateOp
  toUpdate : List UpdateOp
  balanceDeltas : ℤ → ℚ

/-- The empty accumulator: no operations, every user's delta zero. -/
def emptyReconcileResult : ReconcileResult :=
  ⟨[], [], fun _ => 0⟩

/-- `balanceUpdates.set(userId, (balanceUpdates.get(userId) || 0) + d)`. -/
def addDelta (f : ℤ → ℚ) (userId : ℤ) (d : ℚ) : ℤ → ℚ :=
  fun u => if u = userId then f u + d else f u

/-- The `existingCommissionsMap` lookup keyed by
`customerId + "_" + userId`; the database enforces
`UNIQUE (user_id, customer_id)` on `commissions_due`, so at most one row
matches. -/
def lookupExisting (store : List CommissionRecord) (cid uid : ℤ) :
    Option CommissionRecord :=
  store.find? (fun r => r.customer_id = cid && r.user_id = uid)

/-- One iteration of the calculation loop of `bulkProcessCommissions` for
one task: skip if the existing record is admin-modified (the
task-construction `continue`), skip if the computed amount is `<= 0`,
otherwise queue an update when the difference from the stored amount
exceeds one cent, or a create when no record exists, folding the signed
delta into the per-user balance map. -/
def reconcileStep (store : List CommissionRecord) (acc : ReconcileResult)
    (t : RoleTask) : ReconcileResult :=
  let existing := lookupExisting store t.customerId t.userId
  if (existing.map (·.admin_modified)).getD false then acc
  else if t.amt ≤ 0 then acc
  else
    match existing with
    | some r =>
        if 0.01 < |t.amt - r.commission_amount| then
          { acc with
            toUpdate := acc.toUpdate ++ [⟨r.id, t.amt⟩],
            balanceDeltas := addDelta acc.balanceDeltas t.userId (t.amt - r.commission_amount) }
        else acc
    | none =>
        { acc with
          toCreate := acc.toCreate ++ [⟨t.userId, t.customerId, t.amt, false⟩],
          balanceDeltas := addDelta acc.balanceDeltas t.userId t.amt }

/-- The full compute/diff phase: fold the calculation loop over the task
list against the bulk-loaded existing store. -/
def reconcile (store : List CommissionRecord) (tasks : List RoleTask) :
    ReconcileResult :=
  tasks.foldl (reconcileStep store) emptyReconcileResult

/-- `bulkInsertCommissions`: the rows inserted for the create ops, with
serial ids handed out from `nextId`. -/
def buildCreates : List CreateOp → ℤ → List CommissionRecord
  | [], _ => []
  | c :: cs, n =>
      ⟨n, c.customer_id, c.user_id, c.commission_amount, c.admin_modified⟩ :: buildCreates cs (n + 1)

/-- One statement of `bulkUpdateCommissions`: set the amount of the row
whose id matches. -/
def applyUpdate (store : List CommissionRecord) (u : UpdateOp) :
    List CommissionRecord :=
  store.map (fun r => if r.id = u.id then { r with commission_amount := u.commission_amount } else r)

/-- The store after the batch commits: the create ops inserted with fresh
serial ids, then the update ops applied. -/
def applyReconcileResult (store : List CommissionRecord)
    (res : ReconcileResult) (nextId : ℤ) : List CommissionRecord :=
  (res.toUpdate).foldl applyUpdate (store ++ buildCreates res.toCreate nextId)

/-! ## Balance ledger

Embedding of the per-user `user_balance` mutations.  Each constructor is
one SQL `UPDATE` of the source, applied to the row of a fixed user; rows
are created by upsert as `(0, 0, 0)`.
* `commissionDelta` — `updateUserBalanceOnCommissionChange` in
  `src/controllers/commissionController.js` (also `bulkUpdateUserBalances`):
  `total_commissions_earned += a; current_balance += a`.  Commission
  create, update and delete all route their signed delta through it.
* `paymentAdd` — `addPayment` in `src/models/commissionModel.js`:
  `total_payments_received += a;
   current_balance = total_commissions_earned - (total_payments_received + a)`
  (both right-hand sides read the pre-update row).
* `paymentUpdate` — `updatePayment`: for the amount difference `d`,
  `total_payments_received += d; current_balance -= d`.
* `paymentDelete` — `deletePayment`:
  `total_payments_received -= a; current_balance += a`. -/

/-- A `user_balance` row for one user. -/
structure UserBalance where
  total_commissions_earned : ℚ
  total_payments_received : ℚ
  current_balance : ℚ
  deriving DecidableEq, Repr

/-- The row created by the lazy upsert. -/
def initialBalance : UserBalance := ⟨0, 0, 0⟩

/-- One balance mutation (see the section comment for the source of
each). -/
inductive BalanceMutation where
  | commissionDelta (amount : ℚ)
  | paymentAdd (amount : ℚ)
  | paymentUpdate (diff : ℚ)
  | paymentDelete (amount : ℚ)
  deriving DecidableEq, Repr

/-- Apply one mutation's SQL `UPDATE` to the user's balance row. -/
def applyBalanceMutation (b : UserBalance) : BalanceMutation → UserBalance
  | .commissionDelta a =>
      { b with
        total_commissions_earned := b.total_commissions_earned + a,
        current_balance := b.current_balance + a }
  | .paymentAdd a =>
      { b with
        total_payments_received := b.total_payments_received + a,
        current_balance := b.total_commissions_earned - (b.total_payments_received + a) }
  | .paymentUpdate d =>
      { b with
        total_payments_received := b.total_payments_received + d,
        current_balance := b.current_balance - d }
  | .paymentDelete a =>
      { b with
        total_payments_received := b.total_payments_received - a,
        current_balance := b.current_balance + a }

/-- The ledger invariant of the spec:
`currentBalance == totalCommissionsEarned − totalPaymentsReceived`. -/
def balanceInvariant (b : UserBalance) : Prop :=
  b.current_balance = b.total_commissions_earned - b.total_payments_received

/-! ## Team membership store

Embedding of the `user_team_membership` table of `src/data/data.sql`
(which carries `CONSTRAINT unique_user_team UNIQUE (user_id, team_id)`)
and its mutators in `src/models/teamModel.js`. -/

/-- A `user_team_membership` row. -/
structure MembershipRow where
  user_id : ℤ
  team_id : ℤ
  role : String
  joined_at : JsDate
  left_at : Option JsDate
  deriving DecidableEq, Repr

/-- `addUserToTeam` of `src/models/teamModel.js`: `INSERT ... ON CONFLICT
(user_id, team_id) DO UPDATE SET role, joined_at = EXCLUDED.joined_at,
left_at = NULL`.  When a row for the `(user, team)` pair exists, its
interval fields are overwritten in place. -/
def addUserToTeam (store : List MembershipRow) (userId teamId : ℤ)
    (role : String) (joinedAt : JsDate) : List MembershipRow :=
  if store.any (fun r => r.user_id = userId && r.team_id = teamId) then
    store.map (fun r =>
      if r.user_id = userId && r.team_id = teamId then
        { r with role := role, joined_at := joinedAt, left_at := none }
      else r)
  else
    store ++ [⟨userId, teamId, role, joinedAt, none⟩]

/-- `setUserTeamDepartureDate` of `src/models/teamModel.js` (the
membership-table `UPDATE`; the companion team-array cleanup touches the
`teams` table only). -/
def setUserTeamDepartureDate (store : List MembershipRow)
    (userId teamId : ℤ) (leftAt : JsDate) : List MembershipRow :=
  store.map (fun r =>
    if r.user_id = userId && r.team_id = teamId then { r with left_at := some leftAt } else r)

/-- The interval-covering condition of the historical queries:
`joined_at <= target AND (left_at IS NULL OR left_at > target)`. -/
def rowCoversB (targetDate : JsDate) (r : MembershipRow) : Bool :=
  r.joined_at.leB targetDate
    && (match r.left_at with
        | none => true
        | some l => targetDate.ltB l)

/-- `getUserTeamMembershipAtDate` of `src/models/teamModel.js`: among the
user's rows whose interval covers the target date, the one with the
latest `joined_at` (`ORDER BY joined_at DESC LIMIT 1`). -/
def getUserTeamMembershipAtDate (store : List MembershipRow)
    (userId : ℤ) (targetDate : JsDate) : Option MembershipRow :=
  (store.filter (fun r => r.user_id = userId && rowCoversB targetDate r)).foldl
    (fun best r =>
      match best with
      | none => some r
      | some b => if b.joined_at.ltB r.joined_at then some r else some b)
    none

/-! ## Payment-commission mapping

Embedding of `addPaymentCommissionMapping` in
`src/models/commissionModel.js`: alongside inserting the mapping row, it
runs `UPDATE commissions_due SET is_paid = true WHERE id = $1` — with no
condition on `amount_applied`. -/

/-- A `commissions_due` row, restricted to the columns the mapping update
touches or that the claim compares against. -/
structure CommissionDueRow where
  id : ℤ
  commission_amount : ℚ
  is_paid : Bool
  deriving DecidableEq, Repr

/-- The data of a `payment_commission_mapping` insert. -/
structure PaymentCommissionMapping where
  payment_id : ℤ
  commission_due_id : ℤ
  amount_applied : ℚ
  deriving DecidableEq, Repr

/-- The effect of `addPaymentCommissionMapping` on the `commissions_due`
table: mark the mapped row paid, unconditionally. -/
def addPaymentCommissionMapping (rows : List CommissionDueRow)
    (m : PaymentCommissionMapping) : List CommissionDueRow :=
  rows.map (fun r => if r.id = m.commission_due_id then { r with is_paid := true } else r)

/-- The teammate resolution of `calculateSalesManagerCommission` as a
single function: the nested `team` / `team.team_members` null guards
followed by `team_members.find(...)`, `none` when any stage fails. -/
def resolveTeammate (team : Option Team) (assigneeId : Option ℤ)
    (createdAt : JsDate) : Option TeamMember :=
  team.bind fun t => t.team_members.bind fun members =>
    members.find? (memberCoversB assigneeId createdAt)

/-- The record produced by folding the update statements of
`bulkUpdateCommissions` over a single row: each op whose id matches
overwrites the amount. -/
def updFn (us : List UpdateOp) (r : CommissionRecord) : CommissionRecord :=
  us.foldl
    (fun r u => if r.id = u.id then { r with commission_amount := u.commission_amount } else r)
    r

/-! ## Helper lemmas -/

/-- Each balance mutation leaves the ledger invariant intact (`paymentAdd`
re-establishes it outright: the source sets
`current_balance = total_commissions_earned - (total_payments_received + a)`). -/
theorem applyBalanceMutation_invariant (b : UserBalance) (m : BalanceMutation)
    (h : balanceInvariant b) : balanceInvariant (applyBalanceMutation b m) := by
  cases m <;>
    simp only [applyBalanceMutation, balanceInvariant] at h ⊢ <;>
    linarith

/-- Folding mutations from any invariant-satisfying row keeps the invariant. -/
theorem foldl_balanceMutation_invariant (ms : List BalanceMutation) :
    ∀ b : UserBalance, balanceInvariant b →
      balanceInvariant (ms.foldl applyBalanceMutation b) := by
  induction ms with
  | nil => intro b h; exact h
  | cons m ms ih =>
      intro b h
      exact ih _ (applyBalanceMutation_invariant b m h)

/-- C1: For every user and every sequence of balance mutations (commission
create/update/delete deltas and payment add/update/delete), the user's
balance row satisfies
`currentBalance == totalCommissionsEarned − totalPaymentsReceived` after
each mutation completes.  The model tracks one user's row (the SQL updates
touch only the row of the mutation's user, so the per-user rows evolve
independently); quantifying over all mutation lists covers the state after
every prefix of a longer sequence. -/
theorem ledger_invariant_after_any_mutations (ms : List BalanceMutation) :
    balanceInvariant (ms.foldl applyBalanceMutation initialBalance) :=
  foldl_balanceMutation_invariant ms initialBalance (by simp [balanceInvariant, initialBalance])

/-- C10: applying a payment to a commission row via
`addPaymentCommissionMapping` sets the row's `is_paid` flag to true even
when the amount applied is strictly less than the row's commission amount. -/
theorem mapping_marks_commission_paid (rows : List CommissionDueRow)
    (m : PaymentCommissionMapping) (r : CommissionDueRow)
    (hr : r ∈ rows) (hid : r.id = m.commission_due_id)
    (_hless : m.amount_applied < r.commission_amount) :
    { r with is_paid := true } ∈ addPaymentCommissionMapping rows m := by
  unfold addPaymentCommissionMapping
  refine List.mem_map.2 ⟨r, hr, ?_⟩
  rw [if_pos hid]

/-- Witness for C10 at a concrete partial payment: a $40 application to a
$100 commission row still flips `is_paid`. -/
theorem mapping_marks_commission_paid_witness :
    (40 : ℚ) < 100 ∧
      ({ id := 1, commission_amount := 100, is_paid := true } : CommissionDueRow) ∈
        addPaymentCommissionMapping [⟨1, 100, false⟩] ⟨7, 1, 40⟩ :=
  ⟨by norm_num,
   mapping_marks_commission_paid [⟨1, 100, false⟩] ⟨7, 1, 40⟩ ⟨1, 100, false⟩
     (by simp) rfl (by norm_num)⟩

/-- C9: the membership store cannot hold two intervals for one
`(user, team)` pair.  Evaluating the code at the failing input: user 1
joins team 1 in month 0, leaves in month 2, re-joins in month 5.  The
upsert of `addUserToTeam` overwrites the only row, so the store ends with
a single interval starting at month 5 and the as-of-date lookup for month
1 — inside the original interval — returns nothing; the earlier
interval's `joinedAt`/`leftAt` are destroyed rather than preserved. -/
theorem rejoin_destroys_previous_interval :
    (addUserToTeam
        (setUserTeamDepartureDate
          (addUserToTeam [] 1 1 "salesman" ⟨0, 1⟩) 1 1 ⟨2, 1⟩)
        1 1 "salesman" ⟨5, 1⟩) =
      [⟨1, 1, "salesman", ⟨5, 1⟩, none⟩] ∧
    getUserTeamMembershipAtDate
      (addUserToTeam
        (setUserTeamDepartureDate
          (addUserToTeam [] 1 1 "salesman" ⟨0, 1⟩) 1 1 ⟨2, 1⟩)
        1 1 "salesman" ⟨5, 1⟩) 1 ⟨1, 1⟩ = none := by
  constructor <;> rfl

/-- The junior INSCOPE tier at a zero effective price: the
`Canvassing - Company` branch still deducts $300. -/
theorem inscopeTierJunior_zero (ls : String) :
    inscopeTierJunior ls 0 = if ls = "Canvassing - Company" then -300 else 0 := by
  unfold inscopeTierJunior
  split_ifs <;> simp_all

/-- The mid INSCOPE tier at a zero effective price. -/
theorem inscopeTierMid_zero (ls : String) :
    inscopeTierMid ls 0 = if ls = "Canvassing - Company" then -300 else 0 := by
  unfold inscopeTierMid
  split_ifs <;> simp_all

/-- The senior INSCOPE tier at a zero effective price. -/
theorem inscopeTierSenior_zero (ls : String) :
    inscopeTierSenior ls 0 = if ls = "Canvassing - Company" then -300 else 0 := by
  unfold inscopeTierSenior
  split_ifs <;> simp_all

/-- `calculateSalesmanCommission` on a job with both prices zero. -/
theorem calculateSalesmanCommission_zero_prices (user : User) (ls : String)
    (cd : Option JsDate) (now : JsDate) :
    calculateSalesmanCommission user ls 0 0 0 cd now =
      if ls = "Canvassing - Company" then -300 else 0 := by
  simp only [calculateSalesmanCommission, ite_self]
  have hm : ¬((0:ℚ) < 0 ∧ (0:ℚ) < 0) := by norm_num
  rw [if_neg hm, add_zero]
  split_ifs with h1 h2 h3 <;>
    simp_all [inscopeTierJunior_zero, inscopeTierMid_zero, inscopeTierSenior_zero]

/-- The self-worked sales-manager table at a zero total job price. -/
theorem salesManagerSelfTable_zero (ls : String) :
    salesManagerSelfTable ls 0 = 0 ∨ salesManagerSelfTable ls 0 = -300 := by
  unfold salesManagerSelfTable
  split_ifs <;> norm_num

/-- `calculateSalesManagerCommission` on a job with zero total job price
is 0 except for the self-worked `Canvassing - Company` branch (−300). -/
theorem calculateSalesManagerCommission_zero (user : User) (customer : Customer)
    (ls : String) (team : Option Team) (skip : Bool) :
    calculateSalesManagerCommission user customer ls 0 team skip = 0 ∨
      calculateSalesManagerCommission user customer ls 0 team skip = -300 := by
  unfold calculateSalesManagerCommission
  by_cases h1 : skip
  · rw [if_pos h1]; exact Or.inl rfl
  rw [if_neg h1]
  by_cases h2 : customer.salesman_id = some user.id
  · rw [if_pos h2]; exact salesManagerSelfTable_zero ls
  rw [if_neg h2]
  rcases team with _ | t
  · exact Or.inl rfl
  obtain ⟨tm⟩ := t
  rcases tm with _ | members
  · exact Or.inl rfl
  rcases hf : members.find? (memberCoversB customer.salesman_id customer.created_at) with _ | m
  · simp [hf]
  · simp only [hf]; left; simp

/-- `calculateSupplementManagerCommission` on a job with zero margin. -/
theorem calculateSupplementManagerCommission_zero (user : User)
    (customer : Customer) (team : Option Team) (g skip : Bool) :
    calculateSupplementManagerCommission user customer 0 team g skip = 0 ∨
      calculateSupplementManagerCommission user customer 0 team g skip = 200 ∨
      calculateSupplementManagerCommission user customer 0 team g skip = 500 := by
  unfold calculateSupplementManagerCommission
  by_cases h1 : skip
  · rw [if_pos h1]; exact Or.inl rfl
  rw [if_neg h1]
  by_cases h2 : customer.supplementer_id = some user.id
  · rw [if_pos h2]; right; right; cases g <;> norm_num [max_def]
  rw [if_neg h2]
  rcases team with _ | t
  · exact Or.inl rfl
  obtain ⟨tm⟩ := t
  rcases tm with _ | members
  · exact Or.inl rfl
  rcases hf : members.find? (memberCoversB customer.supplementer_id customer.created_at) with _ | m
  · simp [hf]
  · simp only [hf]; right; left; cases g <;> norm_num [max_def]

/-- C4 (amended): on a job with `initialScopePrice = 0` and
`totalJobPrice = 0`, the commission is 0 for AffiliateMarketer (and for an
unrecognised role); 0 for Salesman except lead source
`Canvassing - Company`, where the flat $300 deduction yields −300; 0 or
−300 for SalesManager (−300 only in the self-worked
`Canvassing - Company` branch); 300 for Supplementer; and 0, 200 or 500
for SupplementManager (the $500 / $200 minimums of its self-worked and
override branches). -/
theorem zero_price_commissions (user : User) (customer : Customer)
    (team : Option Team) (useHistoricalData : Bool)
    (historicalTeam : Option Team) (now : JsDate)
    (hisp : customer.initial_scope_price.getD 0 = 0)
    (htjp : customer.total_job_price.getD 0 = 0) :
    (user.role = Role.affiliateMarketer →
      calculateCommission user customer team useHistoricalData historicalTeam now = 0) ∧
    (user.role = Role.supplementer →
      calculateCommission user customer team useHistoricalData historicalTeam now = 300) ∧
    (user.role = Role.salesman →
      calculateCommission user customer team useHistoricalData historicalTeam now =
        (if customer.lead_source.getD "Other" = "Canvassing - Company" then -300 else 0)) ∧
    (user.role = Role.salesManager →
      calculateCommission user customer team useHistoricalData historicalTeam now = 0 ∨
      calculateCommission user customer team useHistoricalData historicalTeam now = -300) ∧
    (user.role = Role.supplementManager →
      calculateCommission user customer team useHistoricalData historicalTeam now = 0 ∨
      calculateCommission user customer team useHistoricalData historicalTeam now = 200 ∨
      calculateCommission user customer team useHistoricalData historicalTeam now = 500) ∧
    (user.role = Role.other →
      calculateCommission user customer team useHistoricalData historicalTeam now = 0) := by
  refine ⟨?_, ?_, ?_, ?_, ?_, ?_⟩ <;> intro hrole <;>
    simp only [calculateCommission, hrole, hisp, htjp, sub_zero, sub_self]
  · simp [calculateAffiliateCommission]
  · unfold calculateSupplementerCommission
    cases customer.going_to_appraisal <;> norm_num [max_def]
  · exact calculateSalesmanCommission_zero_prices user _ _ now
  · exact calculateSalesManagerCommission_zero user customer _ _ _
  · exact calculateSupplementManagerCommission_zero user customer _ _ _

/-- C4 counterexample: a Supplementer on a job with both prices zero is
paid the $300 minimum of `calculateSupplementerCommission`, not 0, so not
every role's commission is 0 on a zero-price job. -/
theorem zero_price_commission_counterexample :
    calculateCommission ⟨1, Role.supplementer, none⟩
      ⟨none, none, none, none, none, none, some 0, some 0, false, none, ⟨0, 1⟩⟩
      none true none ⟨0, 1⟩ = 300 ∧
    ((300 : ℚ) ≠ 0) := by
  constructor
  · norm_num [calculateCommission, calculateSupplementerCommission, max_def]
  · norm_num

/-- Witness for the amended C4 at a concrete input: an AffiliateMarketer
on a zero-price job earns 0. -/
theorem zero_price_commissions_witness :
    calculateCommission ⟨1, Role.affiliateMarketer, none⟩
      ⟨none, none, none, none, none, none, some 0, some 0, false, none, ⟨0, 1⟩⟩
      none true none ⟨0, 1⟩ = 0 :=
  (zero_price_commissions ⟨1, Role.affiliateMarketer, none⟩
      ⟨none, none, none, none, none, none, some 0, some 0, false, none, ⟨0, 1⟩⟩
      none true none ⟨0, 1⟩ rfl rfl).1 rfl

/-- Away from `Canvassing - Company`, the junior INSCOPE tier pays at
least 6% of a nonnegative effective price. -/
theorem inscopeTierJunior_ge (ls : String) (p : ℚ)
    (hls : ls ≠ "Canvassing - Company") (hp : 0 ≤ p) :
    0.06 * p ≤ inscopeTierJunior ls p := by
  unfold inscopeTierJunior
  split_ifs with h1 h2 h3 <;> linarith

/-- Away from `Canvassing - Company`, the mid INSCOPE tier pays at least
6% of a nonnegative effective price. -/
theorem inscopeTierMid_ge (ls : String) (p : ℚ)
    (hls : ls ≠ "Canvassing - Company") (hp : 0 ≤ p) :
    0.06 * p ≤ inscopeTierMid ls p := by
  unfold inscopeTierMid
  split_ifs with h1 h2 h3 <;> linarith

/-- Away from `Canvassing - Company`, the senior INSCOPE tier pays at
least 6% of a nonnegative effective price. -/
theorem inscopeTierSenior_ge (ls : String) (p : ℚ)
    (hls : ls ≠ "Canvassing - Company") (hp : 0 ≤ p) :
    0.06 * p ≤ inscopeTierSenior ls p := by
  unfold inscopeTierSenior
  split_ifs with h1 h2 h3 <;> linarith

/-- The tier selected by any tenure pays at least 6% of a nonnegative
effective price, away from `Canvassing - Company`. -/
theorem inscopeAtTenure_ge (t : ℤ) (ls : String) (p : ℚ)
    (hls : ls ≠ "Canvassing - Company") (hp : 0 ≤ p) :
    0.06 * p ≤
      (if t ≤ 6 then inscopeTierJunior ls p
       else if t ≤ 12 then inscopeTierMid ls p
       else inscopeTierSenior ls p) := by
  split_ifs with h1 h2
  · exact inscopeTierJunior_ge ls p hls hp
  · exact inscopeTierMid_ge ls p hls hp
  · exact inscopeTierSenior_ge ls p hls hp

/-- Away from `Canvassing - Company`, a salesman commission on
nonnegative prices (with the margin the dispatcher passes) is
nonnegative. -/
theorem calculateSalesmanCommission_nonneg (user : User) (ls : String)
    (isp tjp : ℚ) (cd : Option JsDate) (now : JsDate)
    (hls : ls ≠ "Canvassing - Company") (hisp : 0 ≤ isp) (htjp : 0 ≤ tjp) :
    0 ≤ calculateSalesmanCommission user ls isp tjp (tjp - isp) cd now := by
  simp only [calculateSalesmanCommission]
  by_cases h0 : isp = 0
  · rw [if_pos h0]
    have hm : ¬(0 < isp ∧ 0 < tjp) := by rw [h0]; simp
    rw [if_neg hm, add_zero]
    have h := inscopeAtTenure_ge
      (differenceInMonths (cd.getD now) (user.hire_date.getD (cd.getD now))) ls tjp hls htjp
    linarith
  · rw [if_neg h0]
    have hisp' : 0 < isp := lt_of_le_of_ne hisp (Ne.symm h0)
    have h := inscopeAtTenure_ge
      (differenceInMonths (cd.getD now) (user.hire_date.getD (cd.getD now))) ls isp hls hisp
    by_cases hc : 0 < isp ∧ 0 < tjp
    · rw [if_pos hc]
      linarith
    · rw [if_neg hc, add_zero]
      linarith

/-- Away from `Canvassing - Company`, the self-worked sales-manager table
is nonnegative on a nonnegative total job price. -/
theorem salesManagerSelfTable_nonneg (ls : String) (tjp : ℚ)
    (hls : ls ≠ "Canvassing - Company") (htjp : 0 ≤ tjp) :
    0 ≤ salesManagerSelfTable ls tjp := by
  unfold salesManagerSelfTable
  split_ifs with h1 h2 <;> linarith

/-- Away from `Canvassing - Company`, a sales-manager commission on a
nonnegative total job price is nonnegative. -/
theorem calculateSalesManagerCommission_nonneg (user : User)
    (customer : Customer) (ls : String) (tjp : ℚ) (team : Option Team)
    (skip : Bool) (hls : ls ≠ "Canvassing - Company") (htjp : 0 ≤ tjp) :
    0 ≤ calculateSalesManagerCommission user customer ls tjp team skip := by
  unfold calculateSalesManagerCommission
  by_cases h1 : skip
  · rw [if_pos h1]
  rw [if_neg h1]
  by_cases h2 : customer.salesman_id = some user.id
  · rw [if_pos h2]; exact salesManagerSelfTable_nonneg ls tjp hls htjp
  rw [if_neg h2]
  rcases team with _ | t
  · exact le_rfl
  obtain ⟨tm⟩ := t
  rcases tm with _ | members
  · exact le_rfl
  rcases hf : members.find? (memberCoversB customer.salesman_id customer.created_at) with _ | m
  · simp [hf]
  · simp only [hf]
    split_ifs <;> linarith

/-- A supplement-manager commission is nonnegative: every paying branch
is clamped to a positive minimum. -/
theorem calculateSupplementManagerCommission_nonneg (user : User)
    (customer : Customer) (marginAdded : ℚ) (team : Option Team)
    (g skip : Bool) :
    0 ≤ calculateSupplementManagerCommission user customer marginAdded team g skip := by
  unfold calculateSupplementManagerCommission
  by_cases h1 : skip
  · rw [if_pos h1]
  rw [if_neg h1]
  by_cases h2 : customer.supplementer_id = some user.id
  · rw [if_pos h2]
    exact le_trans (by norm_num : (0:ℚ) ≤ 500) (le_max_right _ _)
  rw [if_neg h2]
  rcases team with _ | t
  · exact le_rfl
  obtain ⟨tm⟩ := t
  rcases tm with _ | members
  · exact le_rfl
  rcases hf : members.find? (memberCoversB customer.supplementer_id customer.created_at) with _ | m
  · simp [hf]
  · simp only [hf]
    exact le_trans (by norm_num : (0:ℚ) ≤ 200) (le_max_right _ _)

/-- A supplementer commission is nonnegative: it is clamped at $300. -/
theorem calculateSupplementerCommission_nonneg (marginAdded : ℚ) (g : Bool) :
    0 ≤ calculateSupplementerCommission marginAdded g :=
  le_trans (by norm_num : (0:ℚ) ≤ 300) (le_max_right _ _)

/-- C5 (amended): for nonnegative prices, `computeCommission` is
nonnegative for every role and team context **except** through the
`Canvassing - Company` lead source, whose flat $300 deduction (in the
salesman INSCOPE tables and the self-worked sales-manager table) can
drive the amount below zero; with that lead source excluded, the amount
is always ≥ 0. -/
theorem commission_nonneg_amended (user : User) (customer : Customer)
    (team : Option Team) (useHistoricalData : Bool)
    (historicalTeam : Option Team) (now : JsDate)
    (h1 : 0 ≤ customer.initial_scope_price.getD 0)
    (h2 : 0 ≤ customer.total_job_price.getD 0)
    (h3 : customer.lead_source.getD "Other" ≠ "Canvassing - Company") :
    0 ≤ calculateCommission user customer team useHistoricalData historicalTeam now := by
  obtain ⟨uid, urole, uhire⟩ := user
  cases urole <;> simp only [calculateCommission]
  · exact calculateSalesmanCommission_nonneg _ _ _ _ _ now h3 h1 h2
  · exact calculateSupplementerCommission_nonneg _ _
  · exact calculateSalesManagerCommission_nonneg _ customer _ _ _ _ h3 h2
  · exact calculateSupplementManagerCommission_nonneg _ customer _ _ _ _
  · exact le_min (by linarith) (by norm_num)
  · exact le_rfl

/-- C5 counterexample: a Salesman on a `Canvassing - Company` job with
total job price $100 (tenure 0) is paid `0.08 × 100 − 300 = −292 < 0`, so
`computeCommission` does not always return an amount ≥ 0. -/
theorem commission_negative_counterexample :
    calculateCommission ⟨1, Role.salesman, some ⟨0, 1⟩⟩
      ⟨none, none, none, none, none, some "Canvassing - Company", none, some 100,
        false, some ⟨0, 1⟩, ⟨0, 1⟩⟩
      none true none ⟨0, 1⟩ = -292 ∧
    ¬(0 ≤ (-292 : ℚ)) := by
  constructor
  · norm_num [calculateCommission, calculateSalesmanCommission, differenceInMonths,
      inscopeTierJunior, String.ext_iff]
  · norm_num

/-- Witness for the amended C5 at a concrete input: a Salesman on a
`Referral` job with nonnegative prices earns a nonnegative commission. -/
theorem commission_nonneg_amended_witness :
    0 ≤ calculateCommission ⟨1, Role.salesman, some ⟨0, 1⟩⟩
      ⟨none, none, none, none, none, some "Referral", some 1000, some 1200,
        false, some ⟨9, 1⟩, ⟨9, 1⟩⟩
      none true none ⟨9, 1⟩ :=
  commission_nonneg_amended ⟨1, Role.salesman, some ⟨0, 1⟩⟩
    ⟨none, none, none, none, none, some "Referral", some 1000, some 1200,
      false, some ⟨9, 1⟩, ⟨9, 1⟩⟩
    none true none ⟨9, 1⟩ (by norm_num) (by norm_num) (by decide)

/-- Exactly six calendar months after a date (same day of month), the
`date-fns` month difference is exactly 6. -/
theorem differenceInMonths_six (h : JsDate) :
    differenceInMonths ⟨h.mi + 6, h.d⟩ h = 6 := by
  unfold differenceInMonths
  have hc : h.mi + 6 - h.mi = 6 := by ring
  simp [hc]

/-- C6 (amended): a Salesman job created exactly at `hireDate + 6 months`
(same day of month) has `tenureMonths = 6` and, because the source tests
`tenureMonths <= 6`, is paid from the **junior** (at-most-6-month)
INSCOPE table, not from the 6-to-12-month tier. -/
theorem six_month_boundary_uses_junior_tier (h : JsDate) (user : User)
    (customer : Customer) (team : Option Team) (useHistoricalData : Bool)
    (historicalTeam : Option Team) (now : JsDate)
    (hrole : user.role = Role.salesman)
    (hhire : user.hire_date = some h)
    (hdate : customer.jn_date_added = some ⟨h.mi + 6, h.d⟩) :
    differenceInMonths ⟨h.mi + 6, h.d⟩ h = 6 ∧
    calculateCommission user customer team useHistoricalData historicalTeam now =
      inscopeTierJunior (customer.lead_source.getD "Other")
        (if customer.initial_scope_price.getD 0 = 0 then customer.total_job_price.getD 0
         else customer.initial_scope_price.getD 0) +
      (if 0 < customer.initial_scope_price.getD 0 ∧ 0 < customer.total_job_price.getD 0 then
         0.04 * (customer.total_job_price.getD 0 - customer.initial_scope_price.getD 0)
       else 0) := by
  refine ⟨differenceInMonths_six h, ?_⟩
  simp only [calculateCommission, hrole, hdate, calculateSalesmanCommission,
    Option.getD_some, hhire]
  rw [differenceInMonths_six h]
  norm_num

/-- C6 counterexample: Salesman hired at month 0 day 1, job created at
month 6 day 1 (exactly `hireDate + 6 months`), lead source
`Canvassing - Salesman`, both prices $1000.  The code pays the junior
tier, `0.10 × 1000 = 100`, not the 6-to-12-month tier `0.13 × 1000 = 130`
the claim requires. -/
theorem six_month_boundary_counterexample :
    calculateCommission ⟨1, Role.salesman, some ⟨0, 1⟩⟩
      ⟨none, none, none, none, none, some "Canvassing - Salesman", some 1000, some 1000,
        false, some ⟨6, 1⟩, ⟨6, 1⟩⟩
      none true none ⟨6, 1⟩ = 100 ∧
    ((100 : ℚ) ≠ 0.13 * 1000) := by
  constructor
  · norm_num [calculateCommission, calculateSalesmanCommission, differenceInMonths,
      inscopeTierJunior]
  · norm_num

/-- Witness for the amended C6 at a concrete input. -/
theorem six_month_boundary_witness :
    calculateCommission ⟨1, Role.salesman, some ⟨0, 1⟩⟩
      ⟨none, none, none, none, none, some "Referral", some 1000, some 1000,
        false, some ⟨6, 1⟩, ⟨6, 1⟩⟩
      none true none ⟨6, 1⟩ =
      inscopeTierJunior "Referral" 1000 + 0 := by
  have h := six_month_boundary_uses_junior_tier ⟨0, 1⟩ ⟨1, Role.salesman, some ⟨0, 1⟩⟩
    ⟨none, none, none, none, none, some "Referral", some 1000, some 1000,
      false, some ⟨6, 1⟩, ⟨6, 1⟩⟩
    none true none ⟨6, 1⟩ rfl rfl rfl
  rw [h.2]
  norm_num

/-- `calculateSalesManagerCommission` rephrased through the single
teammate-resolution function `resolveTeammate` (definitionally equal
branch structure). -/
theorem calculateSalesManagerCommission_eq (user : User) (customer : Customer)
    (ls : String) (tjp : ℚ) (team : Option Team) (skip : Bool) :
    calculateSalesManagerCommission user customer ls tjp team skip =
      (if skip then 0
       else if customer.salesman_id = some user.id then salesManagerSelfTable ls tjp
       else
         match resolveTeammate team customer.salesman_id customer.created_at with
         | none => 0
         | some m =>
           if differenceInMonths customer.created_at (m.hire_date.getD customer.created_at) ≤ 6 then
             0.04 * tjp
           else if differenceInMonths customer.created_at (m.hire_date.getD customer.created_at) ≤ 12 then
             0.02 * tjp
           else 0.03 * tjp) := by
  unfold calculateSalesManagerCommission resolveTeammate
  rcases team with _ | ⟨_ | members⟩ <;> rfl

/-- C7 (amended): for a SalesManager (with historical team data, as the
reconciliation batch invokes the engine): if `skipOverride` holds the
commission is 0; **if the manager is the job's own salesman the
commission follows the self-worked lead-source table (15% for
Canvassing-Salesman/Referral, 12% − $300 for Canvassing-Company, 10% for
Affiliate, 12% otherwise) of `totalJobPrice`**; otherwise, if the job's
`salesmanId` does not resolve in the manager's historical team snapshot
at the job's `created_at` the commission is 0, and if it resolves the
commission is 4% / 2% / 3% of `totalJobPrice` for that teammate's tenure
of at most 6 / at most 12 / over 12 months. -/
theorem sales_manager_commission_amended (user : User) (customer : Customer)
    (team : Option Team) (historicalTeam : Option Team) (now : JsDate)
    (hrole : user.role = Role.salesManager) :
    (skipOverrideDueToTiming user customer = true →
      calculateCommission user customer team true historicalTeam now = 0) ∧
    (skipOverrideDueToTiming user customer = false →
      (customer.salesman_id = some user.id →
        calculateCommission user customer team true historicalTeam now =
          salesManagerSelfTable (customer.lead_source.getD "Other")
            (customer.total_job_price.getD 0)) ∧
      (customer.salesman_id ≠ some user.id →
        (resolveTeammate historicalTeam customer.salesman_id customer.created_at = none →
          calculateCommission user customer team true historicalTeam now = 0) ∧
        (∀ m : TeamMember,
          resolveTeammate historicalTeam customer.salesman_id customer.created_at = some m →
          calculateCommission user customer team true historicalTeam now =
            (if differenceInMonths customer.created_at
                  (m.hire_date.getD customer.created_at) ≤ 6 then
               0.04 * customer.total_job_price.getD 0
             else if differenceInMonths customer.created_at
                  (m.hire_date.getD customer.created_at) ≤ 12 then
               0.02 * customer.total_job_price.getD 0
             else 0.03 * customer.total_job_price.getD 0)))) := by
  have hcc : calculateCommission user customer team true historicalTeam now =
      calculateSalesManagerCommission user customer (customer.lead_source.getD "Other")
        (customer.total_job_price.getD 0) historicalTeam
        (skipOverrideDueToTiming user customer) := by
    simp only [calculateCommission, hrole, if_true]
  rw [hcc, calculateSalesManagerCommission_eq]
  refine ⟨fun hskip => by simp [hskip], fun hskip => ⟨fun hself => by simp [hskip, hself], ?_⟩⟩
  intro hself
  refine ⟨fun hres => by simp [hskip, hself, hres], fun m hres => by simp [hskip, hself, hres]⟩

/-- C7 counterexample: a SalesManager who is the job's own salesman (lead
source `Referral`, total job price $1000, no skip) is paid the
self-worked table's `0.15 × 1000 = 150`, not any of the teammate-tenure
percentages 4% / 2% / 3% the claim's case analysis predicts — even though
the manager resolves in their own historical snapshot with tenure 1
month. -/
theorem sales_manager_commission_counterexample :
    calculateCommission ⟨5, Role.salesManager, some ⟨0, 1⟩⟩
      ⟨some 5, none, some 5, none, none, some "Referral", none, some 1000,
        false, some ⟨1, 1⟩, ⟨1, 1⟩⟩
      none true (some ⟨some [⟨5, some ⟨0, 1⟩, ⟨0, 1⟩, none⟩]⟩) ⟨1, 1⟩ = 150 ∧
    ((150 : ℚ) ≠ 0.04 * 1000 ∧ (150 : ℚ) ≠ 0.02 * 1000 ∧ (150 : ℚ) ≠ 0.03 * 1000) := by
  constructor
  · norm_num [calculateCommission, calculateSalesManagerCommission,
      skipOverrideDueToTiming, salesManagerSelfTable, JsDate.ltB]
  · norm_num

/-- Witness for the amended C7 at a concrete input: an override on a
teammate's job with 1 month of tenure pays `0.04 × 1000 = 40`. -/
theorem sales_manager_commission_witness :
    calculateCommission ⟨9, Role.salesManager, some ⟨0, 1⟩⟩
      ⟨some 7, none, some 9, none, none, some "Referral", none, some 1000,
        false, some ⟨1, 1⟩, ⟨1, 1⟩⟩
      none true (some ⟨some [⟨7, some ⟨0, 1⟩, ⟨0, 1⟩, none⟩]⟩) ⟨1, 1⟩ = 40 := by
  have h := sales_manager_commission_amended ⟨9, Role.salesManager, some ⟨0, 1⟩⟩
    ⟨some 7, none, some 9, none, none, some "Referral", none, some 1000,
      false, some ⟨1, 1⟩, ⟨1, 1⟩⟩
    none (some ⟨some [⟨7, some ⟨0, 1⟩, ⟨0, 1⟩, none⟩]⟩) ⟨1, 1⟩ rfl
  have h2 := ((h.2 (by decide)).2 (by decide)).2 ⟨7, some ⟨0, 1⟩, ⟨0, 1⟩, none⟩ (by decide)
  rw [h2]
  norm_num [differenceInMonths]

/-- A task whose existing record is admin-modified is dropped at task
construction and contributes nothing. -/
theorem reconcileStep_admin (store : List CommissionRecord)
    (acc : ReconcileResult) (t : RoleTask) (r : CommissionRecord)
    (h : lookupExisting store t.customerId t.userId = some r)
    (ha : r.admin_modified = true) :
    reconcileStep store acc t = acc := by
  simp only [reconcileStep]
  rw [h]
  simp [ha]

/-- A task whose computed amount is `<= 0` contributes nothing. -/
theorem reconcileStep_nonpos (store : List CommissionRecord)
    (acc : ReconcileResult) (t : RoleTask) (h : t.amt ≤ 0) :
    reconcileStep store acc t = acc := by
  simp only [reconcileStep]
  rcases hl : lookupExisting store t.customerId t.userId with _ | r
  · simp [h]
  · by_cases ha : r.admin_modified <;> simp [ha, h]

/-- A task whose amount is within one cent of the stored amount
contributes nothing. -/
theorem reconcileStep_small (store : List CommissionRecord)
    (acc : ReconcileResult) (t : RoleTask) (r : CommissionRecord)
    (h : lookupExisting store t.customerId t.userId = some r)
    (ha : r.admin_modified = false)
    (hd : |t.amt - r.commission_amount| ≤ 0.01) :
    reconcileStep store acc t = acc := by
  simp only [reconcileStep]
  rw [h]
  by_cases hp : t.amt ≤ 0
  · simp [ha, hp]
  · simp [ha, hp, not_lt.2 hd]

/-- The update branch of the calculation loop. -/
theorem reconcileStep_update (store : List CommissionRecord)
    (acc : ReconcileResult) (t : RoleTask) (r : CommissionRecord)
    (h : lookupExisting store t.customerId t.userId = some r)
    (ha : r.admin_modified = false) (hp : 0 < t.amt)
    (hd : 0.01 < |t.amt - r.commission_amount|) :
    reconcileStep store acc t =
      { acc with
        toUpdate := acc.toUpdate ++ [⟨r.id, t.amt⟩],
        balanceDeltas := addDelta acc.balanceDeltas t.userId (t.amt - r.commission_amount) } := by
  simp only [reconcileStep]
  rw [h]
  simp [ha, not_le.2 hp, hd]

/-- The create branch of the calculation loop. -/
theorem reconcileStep_create (store : List CommissionRecord)
    (acc : ReconcileResult) (t : RoleTask)
    (h : lookupExisting store t.customerId t.userId = none) (hp : 0 < t.amt) :
    reconcileStep store acc t =
      { acc with
        toCreate := acc.toCreate ++ [⟨t.userId, t.customerId, t.amt, false⟩],
        balanceDeltas := addDelta acc.balanceDeltas t.userId t.amt } := by
  simp only [reconcileStep]
  rw [h]
  simp [not_le.2 hp]

/-- Exhaustive case analysis of one calculation-loop step. -/
theorem reconcileStep_cases (store : List CommissionRecord)
    (acc : ReconcileResult) (t : RoleTask) :
    reconcileStep store acc t = acc ∨
    (∃ r, lookupExisting store t.customerId t.userId = some r ∧
      r.admin_modified = false ∧ 0 < t.amt ∧
      0.01 < |t.amt - r.commission_amount| ∧
      reconcileStep store acc t =
        { acc with
          toUpdate := acc.toUpdate ++ [⟨r.id, t.amt⟩],
          balanceDeltas := addDelta acc.balanceDeltas t.userId (t.amt - r.commission_amount) }) ∨
    (lookupExisting store t.customerId t.userId = none ∧ 0 < t.amt ∧
      reconcileStep store acc t =
        { acc with
          toCreate := acc.toCreate ++ [⟨t.userId, t.customerId, t.amt, false⟩],
          balanceDeltas := addDelta acc.balanceDeltas t.userId t.amt }) := by
  rcases hl : lookupExisting store t.customerId t.userId with _ | r
  · by_cases hp : t.amt ≤ 0
    · exact Or.inl (reconcileStep_nonpos store acc t hp)
    · exact Or.inr (Or.inr ⟨rfl, not_le.1 hp, reconcileStep_create store acc t hl (not_le.1 hp)⟩)
  · by_cases ha : r.admin_modified
    · exact Or.inl (reconcileStep_admin store acc t r hl ha)
    · have ha' : r.admin_modified = false := Bool.eq_false_iff.mpr ha
      by_cases hp : t.amt ≤ 0
      · exact Or.inl (reconcileStep_nonpos store acc t hp)
      · by_cases hd : 0.01 < |t.amt - r.commission_amount|
        · exact Or.inr (Or.inl ⟨r, rfl, ha', not_le.1 hp, hd,
            reconcileStep_update store acc t r hl ha' (not_le.1 hp) hd⟩)
        · exact Or.inl (reconcileStep_small store acc t r hl ha' (not_lt.1 hd))

/-- Update ops already accumulated survive the rest of the loop. -/
theorem foldl_toUpdate_mono (store : List CommissionRecord) (tasks : List RoleTask) :
    ∀ (acc : ReconcileResult) (u : UpdateOp), u ∈ acc.toUpdate →
      u ∈ (tasks.foldl (reconcileStep store) acc).toUpdate := by
  induction tasks with
  | nil => exact fun acc u hu => hu
  | cons t ts ih =>
      intro acc u hu
      rw [List.foldl_cons]
      apply ih
      rcases reconcileStep_cases store acc t with heq | ⟨r, _, _, _, _, heq⟩ | ⟨_, _, heq⟩ <;>
        rw [heq] <;> simp [hu]

/-- Create ops already accumulated survive the rest of the loop. -/
theorem foldl_toCreate_mono (store : List CommissionRecord) (tasks : List RoleTask) :
    ∀ (acc : ReconcileResult) (c : CreateOp), c ∈ acc.toCreate →
      c ∈ (tasks.foldl (reconcileStep store) acc).toCreate := by
  induction tasks with
  | nil => exact fun acc c hc => hc
  | cons t ts ih =>
      intro acc c hc
      rw [List.foldl_cons]
      apply ih
      rcases reconcileStep_cases store acc t with heq | ⟨r, _, _, _, _, heq⟩ | ⟨_, _, heq⟩ <;>
        rw [heq] <;> simp [hc]

/-- Soundness of the accumulated update list: every queued update op
originates from a task whose lookup found a non-admin record whose stored
amount differs from the (positive) fresh amount by more than one cent. -/
theorem foldl_toUpdate_sound (store : List CommissionRecord) (tasks : List RoleTask) :
    ∀ (acc : ReconcileResult) (u : UpdateOp),
      u ∈ (tasks.foldl (reconcileStep store) acc).toUpdate →
      u ∈ acc.toUpdate ∨
      ∃ t ∈ tasks, ∃ r, lookupExisting store t.customerId t.userId = some r ∧
        r.admin_modified = false ∧ 0 < t.amt ∧
        0.01 < |t.amt - r.commission_amount| ∧ u = ⟨r.id, t.amt⟩ := by
  induction tasks with
  | nil => exact fun acc u hu => Or.inl hu
  | cons t ts ih =>
      intro acc u hu
      rw [List.foldl_cons] at hu
      rcases ih (reconcileStep store acc t) u hu with h | ⟨t', ht', hrest⟩
      · rcases reconcileStep_cases store acc t with heq | ⟨r, hl, ha, hp, hd, heq⟩ | ⟨_, _, heq⟩
        · rw [heq] at h; exact Or.inl h
        · rw [heq] at h
          simp only [List.mem_append, List.mem_singleton] at h
          rcases h with h | h
          · exact Or.inl h
          · exact Or.inr ⟨t, List.mem_cons_self t ts, r, hl, ha, hp, hd, h⟩
        · rw [heq] at h; exact Or.inl h
      · exact Or.inr ⟨t', List.mem_cons_of_mem t ht', hrest⟩

/-- Soundness of the accumulated create list: every queued create op
originates from a task with no existing record and a positive amount. -/
theorem foldl_toCreate_sound (store : List CommissionRecord) (tasks : List RoleTask) :
    ∀ (acc : ReconcileResult) (c : CreateOp),
      c ∈ (tasks.foldl (reconcileStep store) acc).toCreate →
      c ∈ acc.toCreate ∨
      ∃ t ∈ tasks, lookupExisting store t.customerId t.userId = none ∧
        0 < t.amt ∧ c = ⟨t.userId, t.customerId, t.amt, false⟩ := by
  induction tasks with
  | nil => exact fun acc c hc => Or.inl hc
  | cons t ts ih =>
      intro acc c hc
      rw [List.foldl_cons] at hc
      rcases ih (reconcileStep store acc t) c hc with h | ⟨t', ht', hrest⟩
      · rcases reconcileStep_cases store acc t with heq | ⟨r, hl, ha, hp, hd, heq⟩ | ⟨hl, hp, heq⟩
        · rw [heq] at h; exact Or.inl h
        · rw [heq] at h; exact Or.inl h
        · rw [heq] at h
          simp only [List.mem_append, List.mem_singleton] at h
          rcases h with h | h
          · exact Or.inl h
          · exact Or.inr ⟨t, List.mem_cons_self t ts, hl, hp, h⟩
      · exact Or.inr ⟨t', List.mem_cons_of_mem t ht', hrest⟩

/-- Completeness of the update list: a task that hits the update branch
puts its op in the final list. -/
theorem foldl_toUpdate_complete (store : List CommissionRecord) (tasks : List RoleTask) :
    ∀ (acc : ReconcileResult) (t : RoleTask) (r : CommissionRecord),
      t ∈ tasks → lookupExisting store t.customerId t.userId = some r →
      r.admin_modified = false → 0 < t.amt →
      0.01 < |t.amt - r.commission_amount| →
      (⟨r.id, t.amt⟩ : UpdateOp) ∈ (tasks.foldl (reconcileStep store) acc).toUpdate := by
  induction tasks with
  | nil => intro _ _ _ ht; exact absurd ht (List.not_mem_nil _)
  | cons t0 ts ih =>
      intro acc t r ht hl ha hp hd
      rw [List.foldl_cons]
      rcases List.mem_cons.1 ht with rfl | ht'
      · apply foldl_toUpdate_mono
        rw [reconcileStep_update store acc t r hl ha hp hd]
        simp
      · exact ih _ t r ht' hl ha hp hd

/-- Completeness of the create list: a task that hits the create branch
puts its op in the final list. -/
theorem foldl_toCreate_complete (store : List CommissionRecord) (tasks : List RoleTask) :
    ∀ (acc : ReconcileResult) (t : RoleTask),
      t ∈ tasks → lookupExisting store t.customerId t.userId = none → 0 < t.amt →
      (⟨t.userId, t.customerId, t.amt, false⟩ : CreateOp) ∈
        (tasks.foldl (reconcileStep store) acc).toCreate := by
  induction tasks with
  | nil => intro _ _ ht; exact absurd ht (List.not_mem_nil _)
  | cons t0 ts ih =>
      intro acc t ht hl hp
      rw [List.foldl_cons]
      rcases List.mem_cons.1 ht with rfl | ht'
      · apply foldl_toCreate_mono
        rw [reconcileStep_create store acc t hl hp]
        simp
      · exact ih _ t ht' hl hp

/-- A successful existing-record lookup yields a member of the store with
the looked-up key. -/
theorem lookupExisting_some_facts (store : List CommissionRecord)
    (cid uid : ℤ) (r : CommissionRecord)
    (h : lookupExisting store cid uid = some r) :
    r ∈ store ∧ r.customer_id = cid ∧ r.user_id = uid := by
  refine ⟨List.mem_of_find?_eq_some h, ?_, ?_⟩ <;>
  · have hp := List.find?_some h
    simp only [Bool.and_eq_true, decide_eq_true_eq] at hp
    first
      | exact hp.1
      | exact hp.2

/-- C3: an existing CommissionRecord with `adminModified = true` never
appears in the reconciliation batch's update list (no update op carries
its id), and any task that resolves to it is a complete no-op of the
calculation loop — no update, no create, no balance delta — whatever the
freshly computed amount of that task is. -/
theorem admin_modified_protected (store : List CommissionRecord)
    (tasks : List RoleTask) (r : CommissionRecord)
    (hr : r ∈ store) (ha : r.admin_modified = true)
    (hids : (store.map (fun x => x.id)).Nodup) :
    (∀ u ∈ (reconcile store tasks).toUpdate, u.id ≠ r.id) ∧
    (∀ (t : RoleTask) (acc : ReconcileResult),
      lookupExisting store t.customerId t.userId = some r →
      reconcileStep store acc t = acc) := by
  constructor
  · intro u hu
    rcases foldl_toUpdate_sound store tasks emptyReconcileResult u hu with h | ⟨t, _, r', hl, ha', _, _, hueq⟩
    · exact absurd h (List.not_mem_nil u)
    · intro hcontra
      have hr' : r' ∈ store := (lookupExisting_some_facts store _ _ r' hl).1
      have hid : r'.id = r.id := by rw [← hcontra, hueq]
      have : r' = r := List.inj_on_of_nodup_map hids hr' hr hid
      rw [this, ha] at ha'
      exact absurd ha' (by simp)
  · intro t acc hl
    exact reconcileStep_admin store acc t r hl ha

/-- Witness for C3 at a concrete store and task: the sole task resolves
to an admin-modified record with a wildly diverging fresh amount ($999
versus the stored $100) and the step leaves the accumulator untouched. -/
theorem admin_modified_protected_witness :
    reconcileStep [⟨1, 10, 20, 100, true⟩] emptyReconcileResult ⟨10, 20, 999⟩ =
      emptyReconcileResult :=
  (admin_modified_protected [⟨1, 10, 20, 100, true⟩] [⟨10, 20, 999⟩]
      ⟨1, 10, 20, 100, true⟩ (by simp) rfl (by simp)).2
    ⟨10, 20, 999⟩ emptyReconcileResult (by rfl)

/-- C8 (amended): for a task whose lookup finds a non-admin-modified
record, an update op (with balance delta `newAmount − oldAmount`) is
queued exactly when **`newAmount > 0` and** `|newAmount − oldAmount| >
0.01`; otherwise — including when the freshly computed amount is zero or
negative, however far from the stored amount — the record and the user's
balance delta are left unchanged. -/
theorem update_threshold_amended (store : List CommissionRecord)
    (acc : ReconcileResult) (t : RoleTask) (r : CommissionRecord)
    (h : lookupExisting store t.customerId t.userId = some r)
    (ha : r.admin_modified = false) :
    reconcileStep store acc t =
      if 0 < t.amt ∧ 0.01 < |t.amt - r.commission_amount| then
        { acc with
          toUpdate := acc.toUpdate ++ [⟨r.id, t.amt⟩],
          balanceDeltas := addDelta acc.balanceDeltas t.userId (t.amt - r.commission_amount) }
      else acc := by
  split_ifs with hc
  · exact reconcileStep_update store acc t r h ha hc.1 hc.2
  · by_cases hp : t.amt ≤ 0
    · exact reconcileStep_nonpos store acc t hp
    · have hd : |t.amt - r.commission_amount| ≤ 0.01 := by
        by_contra hd'
        exact hc ⟨not_le.1 hp, not_le.1 hd'⟩
      exact reconcileStep_small store acc t r h ha hd

/-- C8 counterexample: a task computing amount 0 against an existing
non-admin record of $100 differs by far more than one cent, yet the
calculation loop queues **no** update (the `amount <= 0` guard returns
before the difference test), so "queued exactly when the difference
exceeds one cent" is false as stated. -/
theorem update_threshold_counterexample :
    (0.01 : ℚ) < |(0 : ℚ) - 100| ∧
    (reconcile [⟨1, 10, 20, 100, false⟩] [⟨10, 20, 0⟩]).toUpdate = [] := by
  constructor
  · rw [show (0 : ℚ) - 100 = -100 by norm_num, abs_neg,
      abs_of_nonneg (by norm_num : (0 : ℚ) ≤ 100)]
    norm_num
  · rw [reconcile, List.foldl_cons, List.foldl_nil,
      reconcileStep_nonpos _ _ _ le_rfl]
    rfl

/-- Witness for the amended C8 at a concrete input: fresh amount $200
against a stored $100 queues the update op and a $100 balance delta. -/
theorem update_threshold_witness :
    reconcileStep [⟨1, 10, 20, 100, false⟩] emptyReconcileResult ⟨10, 20, 200⟩ =
      { emptyReconcileResult with
        toUpdate := emptyReconcileResult.toUpdate ++ [⟨1, 200⟩],
        balanceDeltas := addDelta emptyReconcileResult.balanceDeltas 20 ((200 : ℚ) - 100) } := by
  rw [update_threshold_amended [⟨1, 10, 20, 100, false⟩] emptyReconcileResult ⟨10, 20, 200⟩
      ⟨1, 10, 20, 100, false⟩ rfl rfl]
  rw [if_pos]
  refine ⟨by norm_num, ?_⟩
  rw [show (200 : ℚ) - 100 = 100 by norm_num,
    abs_of_nonneg (by norm_num : (0 : ℚ) ≤ 100)]
  norm_num

/-- Unfolding one update op in `updFn`. -/
theorem updFn_cons (u : UpdateOp) (us : List UpdateOp) (r : CommissionRecord) :
    updFn (u :: us) r =
      updFn us (if r.id = u.id then { r with commission_amount := u.commission_amount } else r) :=
  rfl

/-- `updFn` never touches the id, key or admin flag of a row. -/
theorem updFn_fields (us : List UpdateOp) : ∀ r : CommissionRecord,
    (updFn us r).id = r.id ∧ (updFn us r).customer_id = r.customer_id ∧
    (updFn us r).user_id = r.user_id ∧
    (updFn us r).admin_modified = r.admin_modified := by
  induction us with
  | nil => exact fun r => ⟨rfl, rfl, rfl, rfl⟩
  | cons u us ih =>
      intro r
      rw [updFn_cons]
      obtain ⟨h1, h2, h3, h4⟩ :=
        ih (if r.id = u.id then { r with commission_amount := u.commission_amount } else r)
      have hf : (if r.id = u.id then { r with commission_amount := u.commission_amount } else r).id = r.id ∧
          (if r.id = u.id then { r with commission_amount := u.commission_amount } else r).customer_id = r.customer_id ∧
          (if r.id = u.id then { r with commission_amount := u.commission_amount } else r).user_id = r.user_id ∧
          (if r.id = u.id then { r with commission_amount := u.commission_amount } else r).admin_modified = r.admin_modified := by
        split <;> exact ⟨rfl, rfl, rfl, rfl⟩
      exact ⟨h1.trans hf.1, h2.trans hf.2.1, h3.trans hf.2.2.1, h4.trans hf.2.2.2⟩

/-- A row whose id matches no update op is untouched. -/
theorem updFn_of_no_match (us : List UpdateOp) : ∀ r : CommissionRecord,
    (∀ u ∈ us, r.id ≠ u.id) → updFn us r = r := by
  induction us with
  | nil => exact fun r _ => rfl
  | cons u us ih =>
      intro r h
      rw [updFn_cons, if_neg (h u (List.mem_cons_self u us))]
      exact ih r fun u' hu' => h u' (List.mem_cons_of_mem u hu')

/-- If some update op matches a row's id and every matching op carries
the amount `a`, the folded row carries amount `a`. -/
theorem updFn_amount_of_match (us : List UpdateOp) : ∀ (r : CommissionRecord) (a : ℚ),
    (∀ u ∈ us, r.id = u.id → u.commission_amount = a) →
    ((∃ u ∈ us, r.id = u.id) ∨ r.commission_amount = a) →
    (updFn us r).commission_amount = a := by
  induction us with
  | nil =>
      intro r a _ hex
      rcases hex with ⟨u, hu, _⟩ | h
      · exact absurd hu (List.not_mem_nil u)
      · exact h
  | cons u us ih =>
      intro r a hall hex
      rw [updFn_cons]
      by_cases hm : r.id = u.id
      · rw [if_pos hm]
        refine ih _ a (fun u' hu' h' => hall u' (List.mem_cons_of_mem u hu') h') ?_
        right
        exact hall u (List.mem_cons_self u us) hm
      · rw [if_neg hm]
        refine ih r a (fun u' hu' h' => hall u' (List.mem_cons_of_mem u hu') h') ?_
        rcases hex with ⟨u', hu', h'⟩ | h
        · rcases List.mem_cons.1 hu' with rfl | hu''
          · exact absurd h' hm
          · exact Or.inl ⟨u', hu'', h'⟩
        · exact Or.inr h

/-- Folding `bulkUpdateCommissions` statements over a store equals
mapping `updFn` over every row. -/
theorem foldl_applyUpdate_eq_map (us : List UpdateOp) :
    ∀ s : List CommissionRecord, us.foldl applyUpdate s = s.map (updFn us) := by
  induction us with
  | nil =>
      intro s
      simp only [List.foldl_nil]
      exact (List.map_id' s).symm
  | cons u us ih =>
      intro s
      rw [List.foldl_cons]
      show us.foldl applyUpdate (applyUpdate s u) = _
      rw [ih (applyUpdate s u), applyUpdate, List.map_map]
      rfl

/-- `find?` through an append when the first part already answers. -/
theorem find?_append_some {α : Type} (p : α → Bool) (l1 l2 : List α) (a : α)
    (h : l1.find? p = some a) : (l1 ++ l2).find? p = some a := by
  induction l1 with
  | nil => simp at h
  | cons x l ih =>
      rw [List.cons_append]
      by_cases hp : p x = true
      · rw [List.find?_cons_of_pos _ hp] at h
        rw [List.find?_cons_of_pos _ hp]
        exact h
      · rw [List.find?_cons_of_neg _ (by simpa using hp)] at h
        rw [List.find?_cons_of_neg _ (by simpa using hp)]
        exact ih h

/-- `find?` through an append when the first part has no match. -/
theorem find?_append_none {α : Type} (p : α → Bool) (l1 l2 : List α)
    (h : l1.find? p = none) : (l1 ++ l2).find? p = l2.find? p := by
  induction l1 with
  | nil => simp
  | cons x l ih =>
      rw [List.cons_append]
      by_cases hp : p x = true
      · rw [List.find?_cons_of_pos _ hp] at h
        cases h
      · rw [List.find?_cons_of_neg _ (by simpa using hp)] at h
        rw [List.find?_cons_of_neg _ (by simpa using hp)]
        exact ih h

/-- Every row inserted by `bulkInsertCommissions` copies one create op's
fields and takes a serial id at or above the starting id. -/
theorem mem_buildCreates : ∀ (cs : List CreateOp) (n : ℤ) (r : CommissionRecord),
    r ∈ buildCreates cs n →
    ∃ c ∈ cs, r.customer_id = c.customer_id ∧ r.user_id = c.user_id ∧
      r.commission_amount = c.commission_amount ∧
      r.admin_modified = c.admin_modified ∧ n ≤ r.id := by
  intro cs
  induction cs with
  | nil => intro n r h; exact absurd h (List.not_mem_nil r)
  | cons c cs ih =>
      intro n r h
      rw [buildCreates] at h
      rcases List.mem_cons.1 h with rfl | h'
      · exact ⟨c, List.mem_cons_self c cs, rfl, rfl, rfl, rfl, le_refl n⟩
      · obtain ⟨c', hc', h1, h2, h3, h4, h5⟩ := ih (n + 1) r h'
        exact ⟨c', List.mem_cons_of_mem c hc', h1, h2, h3, h4, by linarith⟩

/-- Conversely, every create op yields an inserted row with its fields. -/
theorem buildCreates_mem_of_mem : ∀ (cs : List CreateOp) (n : ℤ) (c : CreateOp),
    c ∈ cs →
    ∃ r ∈ buildCreates cs n, r.customer_id = c.customer_id ∧ r.user_id = c.user_id := by
  intro cs
  induction cs with
  | nil => intro n c h; exact absurd h (List.not_mem_nil c)
  | cons c0 cs ih =>
      intro n c h
      rw [buildCreates]
      rcases List.mem_cons.1 h with rfl | h'
      · exact ⟨_, List.mem_cons_self _ _, rfl, rfl⟩
      · obtain ⟨r, hr, h1, h2⟩ := ih (n + 1) c h'
        exact ⟨r, List.mem_cons_of_mem _ hr, h1, h2⟩

/-- If no create op carries the key, the inserted rows do not answer the
lookup. -/
theorem lookup_buildCreates_none (cs : List CreateOp) (n : ℤ) (cid uid : ℤ)
    (h : ∀ c ∈ cs, ¬(c.customer_id = cid ∧ c.user_id = uid)) :
    lookupExisting (buildCreates cs n) cid uid = none := by
  unfold lookupExisting
  rw [List.find?_eq_none]
  intro r hr
  obtain ⟨c, hc, h1, h2, _, _, _⟩ := mem_buildCreates cs n r hr
  simp only [Bool.and_eq_true, decide_eq_true_eq, h1, h2, not_and]
  intro hcc hcu
  exact h c hc ⟨hcc, hcu⟩

/-- If some create op carries the key and every create op with that key
carries amount `a` and a cleared admin flag, the lookup over the
inserted rows answers with such a row (id at or above the serial
start). -/
theorem lookup_buildCreates_spec (cs : List CreateOp) (n : ℤ) (cid uid : ℤ) (a : ℚ)
    (hex : ∃ c ∈ cs, c.customer_id = cid ∧ c.user_id = uid)
    (hall : ∀ c ∈ cs, c.customer_id = cid ∧ c.user_id = uid →
      c.commission_amount = a ∧ c.admin_modified = false) :
    ∃ rc, lookupExisting (buildCreates cs n) cid uid = some rc ∧
      rc.commission_amount = a ∧ rc.admin_modified = false ∧ n ≤ rc.id := by
  have hsome : (lookupExisting (buildCreates cs n) cid uid).isSome := by
    unfold lookupExisting
    rw [List.find?_isSome]
    obtain ⟨c, hc, h1, h2⟩ := hex
    obtain ⟨r, hr, hr1, hr2⟩ := buildCreates_mem_of_mem cs n c hc
    exact ⟨r, hr, by simp [hr1, hr2, h1, h2]⟩
  obtain ⟨rc, hrc⟩ := Option.isSome_iff_exists.1 hsome
  have hmem := List.mem_of_find?_eq_some hrc
  have hpred := List.find?_some hrc
  simp only [Bool.and_eq_true, decide_eq_true_eq] at hpred
  obtain ⟨c, hc, h1, h2, h3, h4, h5⟩ := mem_buildCreates cs n rc hmem
  obtain ⟨ha, hadm⟩ := hall c hc ⟨h1 ▸ hpred.1, h2 ▸ hpred.2⟩
  exact ⟨rc, hrc, h3.trans ha, h4.trans hadm, h5⟩

/-- The lookup over a store with all update statements applied answers
with the updated version of the original row. -/
theorem lookupExisting_map_updFn (s : List CommissionRecord)
    (us : List UpdateOp) (cid uid : ℤ) :
    lookupExisting (s.map (updFn us)) cid uid =
      (lookupExisting s cid uid).map (updFn us) := by
  unfold lookupExisting
  rw [List.find?_map]
  have hp : ((fun r => decide (r.customer_id = cid) && decide (r.user_id = uid)) ∘ updFn us) =
      (fun r : CommissionRecord => decide (r.customer_id = cid) && decide (r.user_id = uid)) := by
    funext r
    obtain ⟨_, h2, h3, _⟩ := updFn_fields us r
    simp [Function.comp, h2, h3]
  rw [hp]

/-- `lookupExisting` through an append when the first part answers. -/
theorem lookupExisting_append_some (s1 s2 : List CommissionRecord)
    (cid uid : ℤ) (r : CommissionRecord)
    (h : lookupExisting s1 cid uid = some r) :
    lookupExisting (s1 ++ s2) cid uid = some r :=
  find?_append_some _ s1 s2 r h

/-- `lookupExisting` through an append when the first part has no
match. -/
theorem lookupExisting_append_none (s1 s2 : List CommissionRecord)
    (cid uid : ℤ) (h : lookupExisting s1 cid uid = none) :
    lookupExisting (s1 ++ s2) cid uid = lookupExisting s2 cid uid :=
  find?_append_none _ s1 s2 h

/-- The core of reconciliation idempotence: once the first batch's output
is committed (creates inserted with fresh serial ids, updates applied),
every task of the same batch is a no-op of the calculation loop.  The
hypotheses are the database invariants of `src/data/data.sql`: task keys
are pairwise distinct (`commissions_due` is `UNIQUE (user_id,
customer_id)`, so duplicate keys would abort the first batch's bulk
insert), ids are a primary key, and serial ids start above every
existing id. -/
theorem reconcile_second_run_noop (store : List CommissionRecord)
    (tasks : List RoleTask) (nextId : ℤ)
    (hkeys : (tasks.map (fun t => (t.customerId, t.userId))).Nodup)
    (hids : (store.map (fun r => r.id)).Nodup)
    (hfresh : ∀ r ∈ store, r.id < nextId) :
    ∀ t ∈ tasks, ∀ acc : ReconcileResult,
      reconcileStep (applyReconcileResult store (reconcile store tasks) nextId) acc t = acc := by
  intro t ht acc
  have hUS : ∀ u ∈ (reconcile store tasks).toUpdate, ∃ t' ∈ tasks, ∃ r',
      lookupExisting store t'.customerId t'.userId = some r' ∧
      r'.admin_modified = false ∧ 0 < t'.amt ∧
      0.01 < |t'.amt - r'.commission_amount| ∧ u = ⟨r'.id, t'.amt⟩ := by
    intro u hu
    rcases foldl_toUpdate_sound store tasks emptyReconcileResult u hu with h | h
    · exact absurd h (List.not_mem_nil u)
    · exact h
  have hCS : ∀ c ∈ (reconcile store tasks).toCreate, ∃ t' ∈ tasks,
      lookupExisting store t'.customerId t'.userId = none ∧ 0 < t'.amt ∧
      c = ⟨t'.userId, t'.customerId, t'.amt, false⟩ := by
    intro c hc
    rcases foldl_toCreate_sound store tasks emptyReconcileResult c hc with h | h
    · exact absurd h (List.not_mem_nil c)
    · exact h
  have hKinj : ∀ t1 ∈ tasks, ∀ t2 ∈ tasks,
      t1.customerId = t2.customerId → t1.userId = t2.userId → t1 = t2 := by
    intro t1 h1 t2 h2 hc hu
    exact List.inj_on_of_nodup_map hkeys h1 h2 (by rw [hc, hu])
  have hIinj : ∀ r1 ∈ store, ∀ r2 ∈ store, r1.id = r2.id → r1 = r2 :=
    fun r1 h1 r2 h2 h => List.inj_on_of_nodup_map hids h1 h2 h
  have hstore2 : applyReconcileResult store (reconcile store tasks) nextId =
      store.map (updFn (reconcile store tasks).toUpdate) ++
        (buildCreates (reconcile store tasks).toCreate nextId).map
          (updFn (reconcile store tasks).toUpdate) := by
    rw [applyReconcileResult, foldl_applyUpdate_eq_map, List.map_append]
  rcases hl : lookupExisting store t.customerId t.userId with _ | r
  · -- no existing record in run 1: a row was created iff the amount is positive
    by_cases hp : t.amt ≤ 0
    · exact reconcileStep_nonpos _ acc t hp
    · have hp' : 0 < t.amt := not_le.1 hp
      have hcmem : (⟨t.userId, t.customerId, t.amt, false⟩ : CreateOp) ∈
          (reconcile store tasks).toCreate :=
        foldl_toCreate_complete store tasks emptyReconcileResult t ht hl hp'
      have hall : ∀ c ∈ (reconcile store tasks).toCreate,
          c.customer_id = t.customerId ∧ c.user_id = t.userId →
          c.commission_amount = t.amt ∧ c.admin_modified = false := by
        intro c hc hkey
        obtain ⟨t', ht', hl', hp'', hceq⟩ := hCS c hc
        subst hceq
        have ht'' : t' = t := hKinj t' ht' t ht hkey.1 hkey.2
        subst ht''
        exact ⟨rfl, rfl⟩
      obtain ⟨rc, hrc, hrca, hrcadm, hrcid⟩ :=
        lookup_buildCreates_spec (reconcile store tasks).toCreate nextId
          t.customerId t.userId t.amt ⟨_, hcmem, rfl, rfl⟩ hall
      have hnomatch : ∀ u ∈ (reconcile store tasks).toUpdate, rc.id ≠ u.id := by
        intro u hu
        obtain ⟨t', _, r', hl', _, _, _, hueq⟩ := hUS u hu
        have hr'mem : r' ∈ store := (lookupExisting_some_facts store _ _ r' hl').1
        have hlt : r'.id < nextId := hfresh r' hr'mem
        rw [hueq]
        intro hcontra
        simp only at hcontra
        linarith
      have hlook2 : lookupExisting (applyReconcileResult store (reconcile store tasks) nextId)
          t.customerId t.userId = some rc := by
        rw [hstore2,
          lookupExisting_append_none _ _ _ _ (by rw [lookupExisting_map_updFn, hl]; rfl),
          lookupExisting_map_updFn, hrc]
        simp [updFn_of_no_match _ rc hnomatch]
      refine reconcileStep_small _ acc t rc hlook2 hrcadm ?_
      rw [hrca, sub_self, abs_zero]
      norm_num
  · -- an existing record r answered the run-1 lookup
    obtain ⟨hrmem, hrcid', hruid'⟩ := lookupExisting_some_facts store _ _ r hl
    have hmatch : ∀ u ∈ (reconcile store tasks).toUpdate, r.id = u.id →
        r.admin_modified = false ∧ 0 < t.amt ∧
        0.01 < |t.amt - r.commission_amount| ∧ u.commission_amount = t.amt := by
      intro u hu hid
      obtain ⟨t', ht', r', hl', ha', hp', hd', hueq⟩ := hUS u hu
      have huid : u.id = r'.id := by rw [hueq]
      obtain ⟨hr'mem, h1', h2'⟩ := lookupExisting_some_facts store _ _ r' hl'
      have hr'r : r' = r := hIinj r' hr'mem r hrmem (by rw [← huid, ← hid])
      have ht't : t' = t := by
        refine hKinj t' ht' t ht ?_ ?_
        · rw [← h1', hr'r, hrcid']
        · rw [← h2', hr'r, hruid']
      subst ht't
      subst hr'r
      refine ⟨ha', hp', hd', ?_⟩
      rw [hueq]
  -- common: the second-run lookup answers with the updated row
    have hlook2 : lookupExisting (applyReconcileResult store (reconcile store tasks) nextId)
        t.customerId t.userId = some (updFn (reconcile store tasks).toUpdate r) := by
      rw [hstore2]
      exact lookupExisting_append_some _ _ _ _ _
        (by rw [lookupExisting_map_updFn, hl]; rfl)
    by_cases ha : r.admin_modified = true
    · have hnom : ∀ u ∈ (reconcile store tasks).toUpdate, r.id ≠ u.id := by
        intro u hu hid
        have := (hmatch u hu hid).1
        rw [ha] at this
        exact absurd this (by simp)
      rw [updFn_of_no_match _ r hnom] at hlook2
      exact reconcileStep_admin _ acc t r hlook2 ha
    · have ha' : r.admin_modified = false := Bool.eq_false_iff.mpr ha
      by_cases hgood : 0 < t.amt ∧ 0.01 < |t.amt - r.commission_amount|
      · have humem : (⟨r.id, t.amt⟩ : UpdateOp) ∈ (reconcile store tasks).toUpdate :=
          foldl_toUpdate_complete store tasks emptyReconcileResult t r ht hl ha'
            hgood.1 hgood.2
        have hamount : (updFn (reconcile store tasks).toUpdate r).commission_amount = t.amt :=
          updFn_amount_of_match _ r t.amt
            (fun u hu hid => (hmatch u hu hid).2.2.2)
            (Or.inl ⟨⟨r.id, t.amt⟩, humem, rfl⟩)
        have hadm2 : (updFn (reconcile store tasks).toUpdate r).admin_modified = false :=
          (updFn_fields _ r).2.2.2.trans ha'
        refine reconcileStep_small _ acc t _ hlook2 hadm2 ?_
        rw [hamount, sub_self, abs_zero]
        norm_num
      · have hnom : ∀ u ∈ (reconcile store tasks).toUpdate, r.id ≠ u.id := by
          intro u hu hid
          exact hgood ⟨(hmatch u hu hid).2.1, (hmatch u hu hid).2.2.1⟩
        rw [updFn_of_no_match _ r hnom] at hlook2
        by_cases hp : t.amt ≤ 0
        · exact reconcileStep_nonpos _ acc t hp
        · have hd : ¬(0.01 < |t.amt - r.commission_amount|) :=
            fun hd' => hgood ⟨not_le.1 hp, hd'⟩
          exact reconcileStep_small _ acc t r hlook2 ha' (not_lt.1 hd)

/-- Folding the calculation loop over tasks that are all no-ops returns
the accumulator unchanged. -/
theorem foldl_reconcileStep_id (store2 : List CommissionRecord)
    (tasks : List RoleTask)
    (h : ∀ t ∈ tasks, ∀ acc : ReconcileResult, reconcileStep store2 acc t = acc) :
    ∀ acc, tasks.foldl (reconcileStep store2) acc = acc := by
  induction tasks with
  | nil => exact fun acc => rfl
  | cons t ts ih =>
      intro acc
      rw [List.foldl_cons, h t (List.mem_cons_self t ts) acc]
      exact ih (fun t' ht' => h t' (List.mem_cons_of_mem t ht')) acc

/-- C2: running the reconciliation batch a second time over the same
unchanged tasks (same jobs, users and team history, hence the same
deterministic amounts) after committing the first run's output produces
an empty create list, an empty update list, and a zero balance delta for
every user.  The hypotheses are the schema invariants of
`src/data/data.sql`: distinct `(customer, user)` task keys, distinct
primary-key ids, and serial ids starting above all existing ids. -/
theorem reconcile_idempotent (store : List CommissionRecord)
    (tasks : List RoleTask) (nextId : ℤ)
    (hkeys : (tasks.map (fun t => (t.customerId, t.userId))).Nodup)
    (hids : (store.map (fun r => r.id)).Nodup)
    (hfresh : ∀ r ∈ store, r.id < nextId) :
    (reconcile (applyReconcileResult store (reconcile store tasks) nextId) tasks).toCreate = [] ∧
    (reconcile (applyReconcileResult store (reconcile store tasks) nextId) tasks).toUpdate = [] ∧
    ∀ uid : ℤ,
      (reconcile (applyReconcileResult store (reconcile store tasks) nextId) tasks).balanceDeltas uid = 0 := by
  have h := foldl_reconcileStep_id _ tasks
    (reconcile_second_run_noop store tasks nextId hkeys hids hfresh) emptyReconcileResult
  refine ⟨?_, ?_, ?_⟩
  · rw [reconcile, h]; rfl
  · rw [reconcile, h]; rfl
  · intro uid
    rw [reconcile, h]; rfl

/-- Witness for C2 at a concrete batch: a store with one stale non-admin
record and one admin-modified record, and tasks that exercise the
update, admin-skip, create and nonpositive-amount branches; the second
run is empty. -/
theorem reconcile_idempotent_witness :
    (reconcile
      (applyReconcileResult [⟨1, 10, 20, 100, false⟩, ⟨2, 10, 21, 50, true⟩]
        (reconcile [⟨1, 10, 20, 100, false⟩, ⟨2, 10, 21, 50, true⟩]
          [⟨10, 20, 200⟩, ⟨10, 21, 500⟩, ⟨10, 22, 75⟩, ⟨10, 23, 0⟩]) 3)
      [⟨10, 20, 200⟩, ⟨10, 21, 500⟩, ⟨10, 22, 75⟩, ⟨10, 23, 0⟩]).toCreate = [] ∧
    (reconcile
      (applyReconcileResult [⟨1, 10, 20, 100, false⟩, ⟨2, 10, 21, 50, true⟩]
        (reconcile [⟨1, 10, 20, 100, false⟩, ⟨2, 10, 21, 50, true⟩]
          [⟨10, 20, 200⟩, ⟨10, 21, 500⟩, ⟨10, 22, 75⟩, ⟨10, 23, 0⟩]) 3)
      [⟨10, 20, 200⟩, ⟨10, 21, 500⟩, ⟨10, 22, 75⟩, ⟨10, 23, 0⟩]).toUpdate = [] ∧
    (reconcile
      (applyReconcileResult [⟨1, 10, 20, 100, false⟩, ⟨2, 10, 21, 50, true⟩]
        (reconcile [⟨1, 10, 20, 100, false⟩, ⟨2, 10, 21, 50, true⟩]
          [⟨10, 20, 200⟩, ⟨10, 21, 500⟩, ⟨10, 22, 75⟩, ⟨10, 23, 0⟩]) 3)
      [⟨10, 20, 200⟩, ⟨10, 21, 500⟩, ⟨10, 22, 75⟩, ⟨10, 23, 0⟩]).balanceDeltas 20 = 0 := by
  obtain ⟨h1, h2, h3⟩ := reconcile_idempotent
    [⟨1, 10, 20, 100, false⟩, ⟨2, 10, 21, 50, true⟩]
    [⟨10, 20, 200⟩, ⟨10, 21, 500⟩, ⟨10, 22, 75⟩, ⟨10, 23, 0⟩] 3
    (by decide) (by decide) (by decide)
  exact ⟨h1, h2, h3 20⟩
